import Mathlib

/-!
Verification of the artifact cache and extraction manager of
k4validation-web (src/app.py), a Flask application that downloads a CI
artifact zip for a given (repository, run number) pair, caches its
extracted contents on disk, and indexes the extracted image files by
category.

The Python code is shallowly embedded: pure string manipulation becomes
Lean functions on String / List Char; the filesystem is an explicit set
of existing paths (List String); the network is an oracle record (Env)
describing what the remote side answers during one call; Python control
flow including caught and uncaught exceptions becomes an explicit
Outcome value.
-/

namespace K4Web

/-! ## Cache key derivation (src/app.py lines 39-42)

Python: cache_path = os.path.join(CACHE_DIR, f"[repo.replace(slash, underscore)]_[run_number]")
-/

def CACHE_DIR : String := "cache"

def STATIC_PLOTS_DIR : String := "static/plots"

/-- Model of python single character str.replace: each occurrence of the
separator is replaced. -/
def sanChar (c : Char) : Char := if c = '/' then '_' else c

/-- Model of repo.replace of the slash by the underscore. -/
def sanitizeRepo (repo : String) : String := ⟨repo.data.map sanChar⟩

/-- Model of the python f-string building the cache key: sanitized repo,
an underscore, then str(run_number). -/
def cacheKey (repo : String) (run_number : Nat) : String :=
  sanitizeRepo repo ++ "_" ++ Nat.repr run_number

/-- Model of os.path.join(CACHE_DIR, key). -/
def cache_path (repo : String) (run : Nat) : String :=
  CACHE_DIR ++ "/" ++ cacheKey repo run

/-- Model of os.path.join(STATIC_PLOTS_DIR, key). -/
def plots_path (repo : String) (run : Nat) : String :=
  STATIC_PLOTS_DIR ++ "/" ++ cacheKey repo run

/-- Model of the temporary archive path, the cache path with suffix .zip. -/
def zip_path (repo : String) (run : Nat) : String :=
  cache_path repo run ++ ".zip"

/-! ## Facts about the decimal representation Nat.repr

Nat.repr is the embedding of python str on a nonnegative int. We prove
that it is injective and that its characters are decimal digits, via a
structurally simpler reference function. -/

/-- Reference form of the decimal digit list of a natural number, most
significant digit first. -/
def toDigRef (n : Nat) : List Char :=
  if h : n < 10 then [Nat.digitChar n]
  else
    have : n / 10 < n := Nat.div_lt_self (by omega) (by omega)
    toDigRef (n / 10) ++ [Nat.digitChar (n % 10)]

theorem toDigRef_small {n : Nat} (h : n < 10) : toDigRef n = [Nat.digitChar n] := by
  rw [toDigRef]
  simp [h]

theorem toDigRef_big {n : Nat} (h : ¬ n < 10) :
    toDigRef n = toDigRef (n / 10) ++ [Nat.digitChar (n % 10)] := by
  rw [toDigRef]
  simp [h]

theorem toDigRef_ne_nil (n : Nat) : toDigRef n ≠ [] := by
  by_cases h : n < 10
  · rw [toDigRef_small h]
    simp
  · rw [toDigRef_big h]
    simp

theorem toDigitsCore_eq_toDigRef (f : Nat) :
    ∀ (n : Nat) (acc : List Char), n < f →
      Nat.toDigitsCore 10 f n acc = toDigRef n ++ acc := by
  induction f with
  | zero => intro n acc h; omega
  | succ f ih =>
    intro n acc h
    by_cases h10 : n / 10 = 0
    · have hn : n < 10 := by omega
      have hmod : n % 10 = n := Nat.mod_eq_of_lt hn
      simp [Nat.toDigitsCore, h10, toDigRef_small hn, hmod]
    · have hn : ¬ n < 10 := by omega
      have hlt : n / 10 < f := by
        have h1 : n / 10 < n := Nat.div_lt_self (by omega) (by omega)
        omega
      simp only [Nat.toDigitsCore, h10, if_false]
      rw [ih (n / 10) (Nat.digitChar (n % 10) :: acc) hlt, toDigRef_big hn]
      simp

theorem repr_data (n : Nat) : (Nat.repr n).data = toDigRef n := by
  have h := toDigitsCore_eq_toDigRef (n + 1) n [] (Nat.lt_succ_self n)
  simp only [List.append_nil] at h
  show (Nat.toDigits 10 n).asString.data = toDigRef n
  rw [Nat.toDigits, h]
  rfl

theorem digitChar_inj_lt : ∀ a < 10, ∀ b < 10,
    Nat.digitChar a = Nat.digitChar b → a = b := by decide

theorem toDigRef_inj : ∀ m n : Nat, toDigRef m = toDigRef n → m = n := by
  intro m
  induction m using Nat.strong_induction_on with
  | _ m ih =>
    intro n h
    by_cases hm : m < 10 <;> by_cases hn : n < 10
    · rw [toDigRef_small hm, toDigRef_small hn] at h
      simp only [List.cons.injEq, and_true] at h
      exact digitChar_inj_lt m hm n hn h
    · rw [toDigRef_small hm, toDigRef_big hn] at h
      exfalso
      have hlen := congrArg List.length h
      simp only [List.length_cons, List.length_nil, List.length_append] at hlen
      exact toDigRef_ne_nil (n / 10) (List.length_eq_zero.1 (by omega))
    · rw [toDigRef_big hm, toDigRef_small hn] at h
      exfalso
      have hlen := congrArg List.length h
      simp only [List.length_cons, List.length_nil, List.length_append] at hlen
      exact toDigRef_ne_nil (m / 10) (List.length_eq_zero.1 (by omega))
    · rw [toDigRef_big hm, toDigRef_big hn] at h
      have hsplit := List.append_inj' h (by simp)
      have hmod : m % 10 = n % 10 := by
        have h2 := hsplit.2
        simp only [List.cons.injEq, and_true] at h2
        exact digitChar_inj_lt (m % 10) (Nat.mod_lt _ (by omega)) (n % 10)
          (Nat.mod_lt _ (by omega)) h2
      have hdiv : m / 10 = n / 10 :=
        ih (m / 10) (Nat.div_lt_self (by omega) (by omega)) (n / 10) hsplit.1
      omega

theorem repr_inj {m n : Nat} (h : Nat.repr m = Nat.repr n) : m = n :=
  toDigRef_inj m n (by rw [← repr_data, ← repr_data, h])

theorem toDigRef_chars (n : Nat) : ∀ c ∈ toDigRef n, ∃ k, k < 10 ∧ c = Nat.digitChar k := by
  induction n using Nat.strong_induction_on with
  | _ n ih =>
    intro c hc
    by_cases h : n < 10
    · rw [toDigRef_small h] at hc
      simp only [List.mem_singleton] at hc
      exact ⟨n, h, hc⟩
    · rw [toDigRef_big h] at hc
      rcases List.mem_append.1 hc with hc | hc
      · exact ih (n / 10) (Nat.div_lt_self (by omega) (by omega)) c hc
      · simp only [List.mem_singleton] at hc
        exact ⟨n % 10, Nat.mod_lt _ (by omega), hc⟩

theorem digitChar_ne_underscore : ∀ k < 10, Nat.digitChar k ≠ '_' := by decide

theorem underscore_not_mem_repr (n : Nat) : '_' ∉ (Nat.repr n).data := by
  rw [repr_data]
  intro hmem
  obtain ⟨k, hk, hc⟩ := toDigRef_chars n _ hmem
  exact digitChar_ne_underscore k hk hc.symm

/-! ## Claim C1: injectivity of the cache key -/

theorem append_sep_inj {u : Char} :
    ∀ (s1 s2 t1 t2 : List Char), u ∉ s1 → u ∉ s2 →
      s1 ++ u :: t1 = s2 ++ u :: t2 → s1 = s2 ∧ t1 = t2 := by
  intro s1
  induction s1 with
  | nil =>
    intro s2 t1 t2 _ h2 h
    cases s2 with
    | nil => simpa using h
    | cons a s2 =>
      simp only [List.nil_append, List.cons_append, List.cons.injEq] at h
      exact absurd (h.1 ▸ List.mem_cons_self a s2) h2
  | cons a s1 ih =>
    intro s2 t1 t2 h1 h2 h
    cases s2 with
    | nil =>
      simp only [List.nil_append, List.cons_append, List.cons.injEq] at h
      exact absurd (h.1 ▸ List.mem_cons_self a s1) h1
    | cons b s2 =>
      simp only [List.cons_append, List.cons.injEq] at h
      have hrec := ih s2 t1 t2 (fun hm => h1 (List.mem_cons_of_mem a hm))
        (fun hm => h2 (List.mem_cons_of_mem b hm)) h.2
      exact ⟨by rw [h.1, hrec.1], hrec.2⟩

theorem sanChar_inj {c1 c2 : Char} (h1 : c1 ≠ '_') (h2 : c2 ≠ '_')
    (h : sanChar c1 = sanChar c2) : c1 = c2 := by
  unfold sanChar at h
  by_cases e1 : c1 = '/' <;> by_cases e2 : c2 = '/'
  · rw [e1, e2]
  · rw [if_pos e1, if_neg e2] at h
    exact absurd h.symm h2
  · rw [if_neg e1, if_pos e2] at h
    exact absurd h h1
  · rwa [if_neg e1, if_neg e2] at h

theorem map_sanChar_inj : ∀ (l1 l2 : List Char), '_' ∉ l1 → '_' ∉ l2 →
    l1.map sanChar = l2.map sanChar → l1 = l2 := by
  intro l1
  induction l1 with
  | nil =>
    intro l2 _ _ h
    cases l2 with
    | nil => rfl
    | cons b l2 => simp at h
  | cons a l1 ih =>
    intro l2 h1 h2 h
    cases l2 with
    | nil => simp at h
    | cons b l2 =>
      simp only [List.map_cons, List.cons.injEq] at h
      have ha : a ≠ '_' := fun e => h1 (e ▸ List.mem_cons_self a l1)
      have hb : b ≠ '_' := fun e => h2 (e ▸ List.mem_cons_self b l2)
      have := sanChar_inj ha hb h.1
      rw [this, ih l2 (fun hm => h1 (List.mem_cons_of_mem a hm))
        (fun hm => h2 (List.mem_cons_of_mem b hm)) h.2]

theorem cacheKey_data (repo : String) (run : Nat) :
    (cacheKey repo run).data = repo.data.map sanChar ++ '_' :: (Nat.repr run).data := by
  simp [cacheKey, sanitizeRepo, String.data_append]

/-- Counterexample to C1: two distinct (repo, id) pairs whose derived cache
keys coincide. The repos a/b_c and a_b/c both sanitize to a_b_c, so with
the same run id the keys are equal although the pairs differ. -/
theorem C1_cex :
    cacheKey "a/b_c" 1 = cacheKey "a_b/c" 1 ∧
      ¬ (("a/b_c" : String) = "a_b/c" ∧ (1 : Nat) = 1) := by
  constructor
  · decide
  · intro h
    exact absurd h.1 (by decide)

/-- C1 (amended): the cache key derivation is deterministic, and it is
injective on pairs whose repository string contains no underscore: for
such pairs the keys agree exactly when the pairs agree. Distinct pairs
whose repos mix slash and underscore can collide. -/
theorem C1_amended_key_injective (r1 r2 : String) (i1 i2 : Nat)
    (h1 : '_' ∉ r1.data) (h2 : '_' ∉ r2.data) :
    cacheKey r1 i1 = cacheKey r2 i2 ↔ (r1 = r2 ∧ i1 = i2) := by
  constructor
  · intro h
    have hd : (cacheKey r1 i1).data = (cacheKey r2 i2).data := congrArg String.data h
    rw [cacheKey_data, cacheKey_data] at hd
    have hrev := congrArg List.reverse hd
    simp only [List.reverse_append, List.reverse_cons] at hrev
    rw [List.append_assoc, List.append_assoc] at hrev
    have hsplit := append_sep_inj ((Nat.repr i1).data.reverse) ((Nat.repr i2).data.reverse)
      (r1.data.map sanChar).reverse (r2.data.map sanChar).reverse
      (fun hm => underscore_not_mem_repr i1 (List.mem_reverse.1 hm))
      (fun hm => underscore_not_mem_repr i2 (List.mem_reverse.1 hm))
      (by simpa using hrev)
    have hi : i1 = i2 :=
      repr_inj (String.ext (List.reverse_injective hsplit.1))
    have hr : r1 = r2 := by
      have hm : r1.data.map sanChar = r2.data.map sanChar :=
        List.reverse_injective hsplit.2
      exact String.ext (map_sanChar_inj r1.data r2.data h1 h2 hm)
    exact ⟨hr, hi⟩
  · intro h
    rw [h.1, h.2]

/-- Witness for the amended C1 theorem at a concrete underscore free pair. -/
theorem C1_witness :
    cacheKey "octocat/Hello-World" 42 = cacheKey "octocat/Hello-World" 42 ↔
      (("octocat/Hello-World" : String) = "octocat/Hello-World" ∧ (42 : Nat) = 42) :=
  C1_amended_key_injective "octocat/Hello-World" "octocat/Hello-World" 42 42
    (by decide) (by decide)

/-! ## Model of the cache manager pipeline (src/app.py lines 37-88)

The filesystem is the set of existing paths, a List String. The network
is an oracle: what the artifact listing request answers, what the
download request answers and whether the parsed bytes form a valid zip,
and whether the rename performed by shutil.move succeeds. Caught python
exceptions (requests RequestException, zipfile BadZipFile) follow the
source control flow; exceptions the source does not catch (the OSError
or FileNotFoundError of shutil.move) surface as a raised Outcome. -/

inductive ReqKind
  | metadata
  | download
deriving DecidableEq

/-- One outbound HTTP request with the Authorization header value it
carries, if any. -/
structure Request where
  url : String
  authHeader : Option String
  kind : ReqKind
deriving DecidableEq

/-- Oracle for the external world during one call: the GITHUB_TOKEN
environment variable, the artifact listing response (error means a
RequestException, including a non 2xx status raised by
raise_for_status), the download response (error means RequestException;
ok none means bytes that zipfile rejects with BadZipFile; ok some gives
the member names of the archive), and whether the rename inside
shutil.move succeeds. -/
structure Env where
  token : Option String
  artifacts : Except Unit (List String)
  download : Except Unit (Option (List String))
  moveOk : Bool

inductive PyExc
  | fileNotFound
  | osError
deriving DecidableEq

/-- Result of a python call: a normal return value, or an uncaught
exception propagating to the caller. -/
inductive Outcome
  | ret (p : Option String)
  | raised (e : PyExc)
deriving DecidableEq

/-- Creating a file or directory at a path. -/
def addPath (fs : List String) (p : String) : List String :=
  if p ∈ fs then fs else p :: fs

/-- Whether q is the path root itself or lies strictly below it. -/
def underPath (root q : String) : Bool :=
  q == root || (root.data ++ ['/']).isPrefixOf q.data

/-- Model of os.remove. -/
def removeFile (fs : List String) (p : String) : List String :=
  fs.filter (fun q => q != p)

/-- Model of shutil.rmtree: removes the directory and everything below it. -/
def removeTree (fs : List String) (p : String) : List String :=
  fs.filter (fun q => !underPath p q)

/-- Model of src/app.py lines 83-87: on a caught error, remove the zip
file if it exists and the staging directory if it exists. -/
def cleanupOnError (fs : List String) (zipPath cachePath : String) : List String :=
  let fs1 := if zipPath ∈ fs then removeFile fs zipPath else fs
  if cachePath ∈ fs1 then removeTree fs1 cachePath else fs1

/-- Split a character list at slashes, modelling str.split of the
separator in os.path. -/
def splitComponents : List Char → List (List Char)
  | [] => [[]]
  | '/' :: rest => [] :: splitComponents rest
  | c :: rest =>
    match splitComponents rest with
    | [] => [[c]]
    | h :: t => (c :: h) :: t

/-- CPython ZipFile extract sanitization: path components that are
empty, a single dot, or a double dot are dropped before the member name
is joined below the target directory. -/
def sanitizedParts (name : String) : List (List Char) :=
  (splitComponents name.data).filter
    (fun p => p != ([] : List Char) && p != ['.'] && p != ['.', '.'])

/-- Join path components with slashes. -/
def joinSep : List (List Char) → List Char
  | [] => []
  | [p] => p
  | p :: rest => p ++ '/' :: joinSep rest

/-- Where a zip member ends up below the extraction target. -/
def memberTarget (dest : String) (name : String) : String :=
  let arc := joinSep (sanitizedParts name)
  if arc = [] then dest else ⟨dest.data ++ '/' :: arc⟩

/-- Model of zip_ref.extractall(cache_path): every member is written at
its sanitized location below dest, and writing a member first creates
dest itself via makedirs. An archive with zero members creates nothing,
in particular it does not create dest. -/
def extractall (fs : List String) (dest : String) (members : List String) : List String :=
  members.foldl (fun acc m => addPath (addPath acc dest) (memberTarget dest m)) fs

/-- Renaming one path when the tree at src moves to dst. -/
def renamePath (src dst q : String) : String :=
  if q == src then dst
  else if (src.data ++ ['/']).isPrefixOf q.data then
    ⟨dst.data ++ '/' :: q.data.drop (src.data.length + 1)⟩
  else q

/-- Model of a successful shutil.move(cache_path, plots_path): the whole
tree is renamed. -/
def moveTree (fs : List String) (src dst : String) : List String :=
  fs.map (renamePath src dst)

/-- URL of the artifact listing endpoint (src/app.py line 20). -/
def api_url (repo : String) (run : Nat) : String :=
  "https://api.github.com/repos/" ++ repo ++ "/actions/runs/" ++ Nat.repr run ++ "/artifacts"

/-- Model of get_artifact_url (src/app.py lines 18-34). The request
carries no Authorization header. A RequestException, including the one
raised by raise_for_status on a non 2xx response, is caught and yields
None; an empty artifact list yields None; otherwise the download url of
the first artifact is returned. -/
def get_artifact_url (env : Env) (repo : String) (run : Nat) :
    Option String × List Request :=
  let req : Request := ⟨api_url repo run, none, ReqKind.metadata⟩
  match env.artifacts with
  | Except.error _ => (none, [req])
  | Except.ok [] => (none, [req])
  | Except.ok (u :: _) => (some u, [req])

/-- Model of the python f-string interpolation of os.environ.get: a
missing value prints as the word None. -/
def pyStrOpt : Option String → String
  | none => "None"
  | some s => s

/-- Model of download_and_extract_artifact (src/app.py lines 37-88).
Returns the python result (or the uncaught exception), the resulting
filesystem, and the trace of HTTP requests issued. -/
def download_and_extract_artifact (env : Env) (repo : String) (run : Nat)
    (fs : List String) : Outcome × List String × List Request :=
  if plots_path repo run ∈ fs then
    (Outcome.ret (some (plots_path repo run)), fs, [])
  else
    match get_artifact_url env repo run with
    | (none, reqs) => (Outcome.ret none, fs, reqs)
    | (some url, reqs) =>
      let dlReq : Request := ⟨url, some ("token " ++ pyStrOpt env.token), ReqKind.download⟩
      match env.download with
      | Except.error _ =>
        (Outcome.ret none,
          cleanupOnError fs (zip_path repo run) (cache_path repo run), reqs ++ [dlReq])
      | Except.ok none =>
        (Outcome.ret none,
          cleanupOnError (addPath fs (zip_path repo run)) (zip_path repo run)
            (cache_path repo run), reqs ++ [dlReq])
      | Except.ok (some members) =>
        let fs2 := extractall (addPath fs (zip_path repo run)) (cache_path repo run) members
        if cache_path repo run ∈ fs2 then
          if env.moveOk then
            (Outcome.ret (some (plots_path repo run)),
              removeFile (moveTree fs2 (cache_path repo run) (plots_path repo run))
                (zip_path repo run), reqs ++ [dlReq])
          else
            (Outcome.raised PyExc.osError, fs2, reqs ++ [dlReq])
        else
          (Outcome.raised PyExc.fileNotFound, fs2, reqs ++ [dlReq])

/-! ## Path distinctness and filesystem lemmas -/

theorem plots_ne_zip (repo : String) (run : Nat) :
    plots_path repo run ≠ zip_path repo run := by
  intro h
  have hlen := congrArg (fun s => s.data.length) h
  simp only [plots_path, zip_path, cache_path, STATIC_PLOTS_DIR, CACHE_DIR,
    String.data_append, List.length_append, List.length_cons, List.length_nil] at hlen
  omega

theorem plots_ne_cache (repo : String) (run : Nat) :
    plots_path repo run ≠ cache_path repo run := by
  intro h
  have hlen := congrArg (fun s => s.data.length) h
  simp only [plots_path, cache_path, STATIC_PLOTS_DIR, CACHE_DIR,
    String.data_append, List.length_append, List.length_cons, List.length_nil] at hlen
  omega

theorem cache_ne_zip (repo : String) (run : Nat) :
    cache_path repo run ≠ zip_path repo run := by
  intro h
  have hlen := congrArg (fun s => s.data.length) h
  simp only [zip_path, cache_path, CACHE_DIR, String.data_append,
    List.length_append, List.length_cons, List.length_nil] at hlen
  omega

theorem mem_addPath {fs : List String} {p q : String} :
    q ∈ addPath fs p ↔ q = p ∨ q ∈ fs := by
  unfold addPath
  split
  · rename_i hp
    constructor
    · exact Or.inr
    · rintro (rfl | hq)
      · exact hp
      · exact hq
  · exact List.mem_cons

theorem mem_removeFile {fs : List String} {p q : String} :
    q ∈ removeFile fs p ↔ q ∈ fs ∧ q ≠ p := by
  simp [removeFile, List.mem_filter]

theorem mem_removeTree {fs : List String} {p q : String} :
    q ∈ removeTree fs p ↔ q ∈ fs ∧ underPath p q = false := by
  simp [removeTree, List.mem_filter]

theorem underPath_self (p : String) : underPath p p = true := by
  simp [underPath]

theorem cleanup_subset {fs : List String} {z c q : String}
    (h : q ∈ cleanupOnError fs z c) : q ∈ fs := by
  simp only [cleanupOnError] at h
  by_cases hz : z ∈ fs
  · rw [if_pos hz] at h
    by_cases hc : c ∈ removeFile fs z
    · rw [if_pos hc] at h
      exact (mem_removeFile.1 (mem_removeTree.1 h).1).1
    · rw [if_neg hc] at h
      exact (mem_removeFile.1 h).1
  · rw [if_neg hz] at h
    by_cases hc : c ∈ fs
    · rw [if_pos hc] at h
      exact (mem_removeTree.1 h).1
    · rw [if_neg hc] at h
      exact h

theorem cleanup_no_zip (fs : List String) (z c : String) : z ∉ cleanupOnError fs z c := by
  intro h
  simp only [cleanupOnError] at h
  by_cases hz : z ∈ fs
  · rw [if_pos hz] at h
    by_cases hc : c ∈ removeFile fs z
    · rw [if_pos hc] at h
      exact (mem_removeFile.1 (mem_removeTree.1 h).1).2 rfl
    · rw [if_neg hc] at h
      exact (mem_removeFile.1 h).2 rfl
  · rw [if_neg hz] at h
    by_cases hc : c ∈ fs
    · rw [if_pos hc] at h
      exact hz (mem_removeTree.1 h).1
    · rw [if_neg hc] at h
      exact hz h

theorem cleanup_no_cache (fs : List String) (z c : String) : c ∉ cleanupOnError fs z c := by
  intro h
  simp only [cleanupOnError] at h
  by_cases hz : z ∈ fs
  · rw [if_pos hz] at h
    by_cases hc : c ∈ removeFile fs z
    · rw [if_pos hc] at h
      have := (mem_removeTree.1 h).2
      rw [underPath_self] at this
      exact Bool.noConfusion this
    · rw [if_neg hc] at h
      exact hc h
  · rw [if_neg hz] at h
    by_cases hc : c ∈ fs
    · rw [if_pos hc] at h
      have := (mem_removeTree.1 h).2
      rw [underPath_self] at this
      exact Bool.noConfusion this
    · rw [if_neg hc] at h
      exact hc h

theorem mem_moveTree_dst {fs : List String} {src dst : String}
    (h : src ∈ fs) : dst ∈ moveTree fs src dst := by
  refine List.mem_map.2 ⟨src, h, ?_⟩
  simp [renamePath]

/-- Reduction of the cache hit branch (src/app.py lines 47-49). -/
theorem cache_hit_eq (env : Env) (repo : String) (run : Nat) (fs : List String)
    (h : plots_path repo run ∈ fs) :
    download_and_extract_artifact env repo run fs =
      (Outcome.ret (some (plots_path repo run)), fs, []) := by
  simp only [download_and_extract_artifact]
  rw [if_pos h]

/-- Any call returning a path returns the published path, leaves it
existing, and issued at most one download request. -/
theorem ret_some_characterization (env : Env) (repo : String) (run : Nat)
    (fs : List String) (p : String) (fs1 : List String) (reqs : List Request)
    (h : download_and_extract_artifact env repo run fs = (Outcome.ret (some p), fs1, reqs)) :
    p = plots_path repo run ∧ plots_path repo run ∈ fs1 ∧
      (reqs.filter (fun r => r.kind == ReqKind.download)).length ≤ 1 := by
  by_cases hhit : plots_path repo run ∈ fs
  · rw [cache_hit_eq env repo run fs hhit] at h
    simp only [Prod.mk.injEq, Outcome.ret.injEq, Option.some.injEq] at h
    obtain ⟨h1, h2, h3⟩ := h
    subst h2
    subst h3
    exact ⟨h1.symm, hhit, by simp⟩
  · obtain ⟨tok, arts, dl, mv⟩ := env
    cases arts with
    | error e =>
      simp only [download_and_extract_artifact, get_artifact_url] at h
      rw [if_neg hhit] at h
      simp at h
    | ok l =>
      cases l with
      | nil =>
        simp only [download_and_extract_artifact, get_artifact_url] at h
        rw [if_neg hhit] at h
        simp at h
      | cons u us =>
        cases dl with
        | error e =>
          simp only [download_and_extract_artifact, get_artifact_url] at h
          rw [if_neg hhit] at h
          simp at h
        | ok odl =>
          cases odl with
          | none =>
            simp only [download_and_extract_artifact, get_artifact_url] at h
            rw [if_neg hhit] at h
            simp at h
          | some members =>
            simp only [download_and_extract_artifact, get_artifact_url] at h
            rw [if_neg hhit] at h
            by_cases hcache : cache_path repo run ∈
                extractall (addPath fs (zip_path repo run)) (cache_path repo run) members
            · rw [if_pos hcache] at h
              cases mv with
              | false => simp at h
              | true =>
                simp only [if_true, Prod.mk.injEq, Outcome.ret.injEq,
                  Option.some.injEq] at h
                obtain ⟨h1, h2, h3⟩ := h
                subst h2
                refine ⟨h1.symm, ?_, ?_⟩
                · exact mem_removeFile.2 ⟨mem_moveTree_dst hcache, plots_ne_zip repo run⟩
                · rw [← h3]
                  simp [List.filter, show (ReqKind.metadata == ReqKind.download) = false from rfl,
                    show (ReqKind.download == ReqKind.download) = true from rfl]
            · rw [if_neg hcache] at h
              simp at h

/-- C2: a call for a pair whose published path exists returns that path
at once, touching neither the filesystem nor the network; consequently
after any successful call a repeated call is a pure lookup and the two
calls together issue at most one download request. -/
theorem C2_cache_hit_idempotent (env : Env) (repo : String) (run : Nat) (fs : List String) :
    (plots_path repo run ∈ fs →
      download_and_extract_artifact env repo run fs =
        (Outcome.ret (some (plots_path repo run)), fs, [])) ∧
    (∀ (env2 : Env) (p : String) (fs1 : List String) (reqs : List Request),
      download_and_extract_artifact env repo run fs = (Outcome.ret (some p), fs1, reqs) →
      download_and_extract_artifact env2 repo run fs1 = (Outcome.ret (some p), fs1, []) ∧
        (reqs.filter (fun r => r.kind == ReqKind.download)).length ≤ 1) := by
  refine ⟨fun h => cache_hit_eq env repo run fs h, ?_⟩
  intro env2 p fs1 reqs h
  obtain ⟨hp, hmem, hcnt⟩ := ret_some_characterization env repo run fs p fs1 reqs h
  subst hp
  exact ⟨cache_hit_eq env2 repo run fs1 hmem, hcnt⟩

/-- Witness for C2 at a concrete cached state. -/
theorem C2_witness :
    download_and_extract_artifact ⟨none, Except.error (), Except.error (), true⟩ "o/r" 1
        [plots_path "o/r" 1] =
      (Outcome.ret (some (plots_path "o/r" 1)), [plots_path "o/r" 1], []) :=
  (C2_cache_hit_idempotent ⟨none, Except.error (), Except.error (), true⟩ "o/r" 1
    [plots_path "o/r" 1]).1 (List.mem_singleton.2 rfl)

/-- Counterexample to C3: when the publish step (shutil.move) fails, the
error is an uncaught exception, and neither the temporary archive nor
the staging directory is deleted, contrary to the claimed cleanup on
every failing build attempt. -/
theorem C3_cex :
    download_and_extract_artifact
        ⟨none, Except.ok ["u"], Except.ok (some ["unit/a.png"]), false⟩ "o/r" 1 [] =
      (Outcome.raised PyExc.osError,
        ["cache/o_r_1/unit/a.png", "cache/o_r_1", "cache/o_r_1.zip"],
        [⟨api_url "o/r" 1, none, ReqKind.metadata⟩,
         ⟨"u", some "token None", ReqKind.download⟩]) ∧
    zip_path "o/r" 1 ∈ ["cache/o_r_1/unit/a.png", "cache/o_r_1", "cache/o_r_1.zip"] ∧
    cache_path "o/r" 1 ∈ ["cache/o_r_1/unit/a.png", "cache/o_r_1", "cache/o_r_1.zip"] := by
  decide

/-- C3 (amended): for the failures the source actually catches, a fetch
error (RequestException) or an unparseable archive (BadZipFile), the
temporary archive and the staging directory are removed before None is
returned and nothing exists at the published path afterwards. A failure
of the publish move itself is not handled and performs no cleanup. -/
theorem C3_amended_cleanup_on_caught_errors (tok : Option String) (u : String)
    (us : List String) (dlE : Except Unit (Option (List String))) (mv : Bool)
    (repo : String) (run : Nat) (fs : List String)
    (hmiss : plots_path repo run ∉ fs)
    (herr : dlE = Except.error () ∨ dlE = Except.ok none) :
    ∃ fs1, download_and_extract_artifact ⟨tok, Except.ok (u :: us), dlE, mv⟩ repo run fs =
        (Outcome.ret none, fs1,
          [⟨api_url repo run, none, ReqKind.metadata⟩,
           ⟨u, some ("token " ++ pyStrOpt tok), ReqKind.download⟩]) ∧
      zip_path repo run ∉ fs1 ∧ cache_path repo run ∉ fs1 ∧ plots_path repo run ∉ fs1 := by
  rcases herr with rfl | rfl
  · refine ⟨cleanupOnError fs (zip_path repo run) (cache_path repo run), ?_, ?_, ?_, ?_⟩
    · simp only [download_and_extract_artifact, get_artifact_url, List.singleton_append]
      rw [if_neg hmiss]
    · exact cleanup_no_zip _ _ _
    · exact cleanup_no_cache _ _ _
    · exact fun hc => hmiss (cleanup_subset hc)
  · refine ⟨cleanupOnError (addPath fs (zip_path repo run)) (zip_path repo run)
      (cache_path repo run), ?_, ?_, ?_, ?_⟩
    · simp only [download_and_extract_artifact, get_artifact_url, List.singleton_append]
      rw [if_neg hmiss]
    · exact cleanup_no_zip _ _ _
    · exact cleanup_no_cache _ _ _
    · intro hc
      rcases mem_addPath.1 (cleanup_subset hc) with h | h
      · exact plots_ne_zip repo run h
      · exact hmiss h

/-- Witness for the amended C3 theorem on a corrupt archive download. -/
theorem C3_witness :
    ∃ fs1, download_and_extract_artifact ⟨none, Except.ok ["u"], Except.ok none, true⟩
        "o/r" 1 [] =
        (Outcome.ret none, fs1,
          [⟨api_url "o/r" 1, none, ReqKind.metadata⟩,
           ⟨"u", some ("token " ++ pyStrOpt none), ReqKind.download⟩]) ∧
      zip_path "o/r" 1 ∉ fs1 ∧ cache_path "o/r" 1 ∉ fs1 ∧ plots_path "o/r" 1 ∉ fs1 :=
  C3_amended_cleanup_on_caught_errors none "u" [] (Except.ok none) true "o/r" 1 []
    (List.not_mem_nil _) (Or.inr rfl)

/-- Counterexample to C4: a filesystem failure during the atomic move is
not collapsed to the single error return value; the exception propagates
and the temporary archive is left in place. -/
theorem C4_cex :
    (download_and_extract_artifact
        ⟨none, Except.ok ["d"], Except.ok (some ["p/q.png"]), false⟩ "x/y" 2 []).1 =
      Outcome.raised PyExc.osError ∧
    (download_and_extract_artifact
        ⟨none, Except.ok ["d"], Except.ok (some ["p/q.png"]), false⟩ "x/y" 2 []).1 ≠
      Outcome.ret none ∧
    zip_path "x/y" 2 ∈ (download_and_extract_artifact
        ⟨none, Except.ok ["d"], Except.ok (some ["p/q.png"]), false⟩ "x/y" 2 []).2.1 := by
  decide

/-- C4 (amended): locator failures, fetch failures and unparseable
archives all collapse to the single error return value None, with the
published path absent afterwards; only a failure of the publish move
escapes as an unhandled exception. -/
theorem C4_amended_single_error_result (tok : Option String)
    (arts : Except Unit (List String)) (dlE : Except Unit (Option (List String)))
    (mv : Bool) (repo : String) (run : Nat) (fs : List String)
    (hmiss : plots_path repo run ∉ fs)
    (hfail : arts = Except.error () ∨ arts = Except.ok [] ∨
      dlE = Except.error () ∨ dlE = Except.ok none) :
    ∃ fs1 reqs, download_and_extract_artifact ⟨tok, arts, dlE, mv⟩ repo run fs =
        (Outcome.ret none, fs1, reqs) ∧ plots_path repo run ∉ fs1 := by
  rcases hfail with rfl | rfl | rfl | rfl
  · refine ⟨fs, [⟨api_url repo run, none, ReqKind.metadata⟩], ?_, hmiss⟩
    simp only [download_and_extract_artifact, get_artifact_url]
    rw [if_neg hmiss]
  · refine ⟨fs, [⟨api_url repo run, none, ReqKind.metadata⟩], ?_, hmiss⟩
    simp only [download_and_extract_artifact, get_artifact_url]
    rw [if_neg hmiss]
  · cases arts with
    | error e =>
      refine ⟨fs, [⟨api_url repo run, none, ReqKind.metadata⟩], ?_, hmiss⟩
      simp only [download_and_extract_artifact, get_artifact_url]
      rw [if_neg hmiss]
    | ok l =>
      cases l with
      | nil =>
        refine ⟨fs, [⟨api_url repo run, none, ReqKind.metadata⟩], ?_, hmiss⟩
        simp only [download_and_extract_artifact, get_artifact_url]
        rw [if_neg hmiss]
      | cons u us =>
        refine ⟨cleanupOnError fs (zip_path repo run) (cache_path repo run),
          [⟨api_url repo run, none, ReqKind.metadata⟩,
           ⟨u, some ("token " ++ pyStrOpt tok), ReqKind.download⟩], ?_, ?_⟩
        · simp only [download_and_extract_artifact, get_artifact_url, List.singleton_append]
          rw [if_neg hmiss]
        · exact fun hc => hmiss (cleanup_subset hc)
  · cases arts with
    | error e =>
      refine ⟨fs, [⟨api_url repo run, none, ReqKind.metadata⟩], ?_, hmiss⟩
      simp only [download_and_extract_artifact, get_artifact_url]
      rw [if_neg hmiss]
    | ok l =>
      cases l with
      | nil =>
        refine ⟨fs, [⟨api_url repo run, none, ReqKind.metadata⟩], ?_, hmiss⟩
        simp only [download_and_extract_artifact, get_artifact_url]
        rw [if_neg hmiss]
      | cons u us =>
        refine ⟨cleanupOnError (addPath fs (zip_path repo run)) (zip_path repo run)
          (cache_path repo run),
          [⟨api_url repo run, none, ReqKind.metadata⟩,
           ⟨u, some ("token " ++ pyStrOpt tok), ReqKind.download⟩], ?_, ?_⟩
        · simp only [download_and_extract_artifact, get_artifact_url, List.singleton_append]
          rw [if_neg hmiss]
        · intro hc
          rcases mem_addPath.1 (cleanup_subset hc) with h | h
          · exact plots_ne_zip repo run h
          · exact hmiss h

/-- Witness for the amended C4 theorem on a locator failure. -/
theorem C4_witness :
    ∃ fs1 reqs, download_and_extract_artifact
        ⟨none, Except.error (), Except.error (), true⟩ "o/r" 1 [] =
        (Outcome.ret none, fs1, reqs) ∧ plots_path "o/r" 1 ∉ fs1 :=
  C4_amended_single_error_result none (Except.error ()) (Except.error ()) true "o/r" 1 []
    (List.not_mem_nil _) (Or.inl rfl)

/-- C5 evaluated on the code: an archive entry whose path would escape
the staging directory is silently sanitized by the CPython extractall
(the leading double dot components are dropped), the build succeeds, and
the entry lands inside the published tree. No traversal error is
raised. -/
theorem C5_traversal_sanitized_not_rejected :
    download_and_extract_artifact
        ⟨none, Except.ok ["u"], Except.ok (some ["../../etc/passthrough"]), true⟩ "o/r" 1 [] =
      (Outcome.ret (some (plots_path "o/r" 1)),
        ["static/plots/o_r_1/etc/passthrough", "static/plots/o_r_1"],
        [⟨api_url "o/r" 1, none, ReqKind.metadata⟩,
         ⟨"u", some "token None", ReqKind.download⟩]) ∧
    memberTarget (cache_path "o/r" 1) "../../etc/passthrough" =
      "cache/o_r_1/etc/passthrough" := by
  decide

/-- Counterexample to C6: a well formed archive with zero entries is not
reported as a corrupt archive error. Extraction succeeds without
creating the staging directory, then the move crashes with an uncaught
FileNotFoundError and the zip file is left behind. -/
theorem C6_cex :
    (download_and_extract_artifact ⟨none, Except.ok ["u"], Except.ok (some []), true⟩
        "o/r" 1 []).1 = Outcome.raised PyExc.fileNotFound ∧
    (download_and_extract_artifact ⟨none, Except.ok ["u"], Except.ok (some []), true⟩
        "o/r" 1 []).1 ≠ Outcome.ret none ∧
    zip_path "o/r" 1 ∈ (download_and_extract_artifact ⟨none, Except.ok ["u"],
        Except.ok (some []), true⟩ "o/r" 1 []).2.1 := by
  decide

/-- C6 (amended): unparseable bytes raise BadZipFile, which is caught and
collapsed to the None error return; a parseable archive with zero
entries extracts successfully to nothing, after which the publish move
finds no staging directory and crashes with an uncaught
FileNotFoundError, leaving the zip file in place. -/
theorem C6_amended_empty_archive_crashes (tok : Option String) (u : String)
    (us : List String) (mv : Bool) (repo : String) (run : Nat) (fs : List String)
    (hmiss : plots_path repo run ∉ fs) (hstg : cache_path repo run ∉ fs) :
    (download_and_extract_artifact ⟨tok, Except.ok (u :: us), Except.ok none, mv⟩
        repo run fs).1 = Outcome.ret none ∧
    download_and_extract_artifact ⟨tok, Except.ok (u :: us), Except.ok (some []), mv⟩
        repo run fs =
      (Outcome.raised PyExc.fileNotFound, addPath fs (zip_path repo run),
        [⟨api_url repo run, none, ReqKind.metadata⟩,
         ⟨u, some ("token " ++ pyStrOpt tok), ReqKind.download⟩]) := by
  constructor
  · simp only [download_and_extract_artifact, get_artifact_url]
    rw [if_neg hmiss]
  · have hnc : cache_path repo run ∉ addPath fs (zip_path repo run) := by
      intro hc
      rcases mem_addPath.1 hc with h | h
      · exact cache_ne_zip repo run h
      · exact hstg h
    simp only [download_and_extract_artifact, get_artifact_url, List.singleton_append]
    rw [if_neg hmiss]
    rw [show extractall (addPath fs (zip_path repo run)) (cache_path repo run) [] =
      addPath fs (zip_path repo run) from rfl]
    rw [if_neg hnc]

/-- Witness for the amended C6 theorem at a concrete empty archive. -/
theorem C6_witness :
    (download_and_extract_artifact ⟨some "T", Except.ok ["u"], Except.ok none, true⟩
        "o/r" 1 []).1 = Outcome.ret none ∧
    download_and_extract_artifact ⟨some "T", Except.ok ["u"], Except.ok (some []), true⟩
        "o/r" 1 [] =
      (Outcome.raised PyExc.fileNotFound, addPath [] (zip_path "o/r" 1),
        [⟨api_url "o/r" 1, none, ReqKind.metadata⟩,
         ⟨"u", some ("token " ++ pyStrOpt (some "T")), ReqKind.download⟩]) :=
  C6_amended_empty_archive_crashes (some "T") "u" [] true "o/r" 1 []
    (List.not_mem_nil _) (List.not_mem_nil _)

/-- C9 evaluated on the code: with a configured credential the download
request carries the expected token header, but with the credential
absent the request is not sent credential free: python interpolates the
missing value and the request carries the literal header value token
None. -/
theorem C9_auth_header_token_none :
    (download_and_extract_artifact
        ⟨some "SECRET", Except.ok ["u"], Except.ok (some ["unit/a.png"]), true⟩
        "o/r" 1 []).2.2 =
      [⟨api_url "o/r" 1, none, ReqKind.metadata⟩,
       ⟨"u", some "token SECRET", ReqKind.download⟩] ∧
    (download_and_extract_artifact
        ⟨none, Except.ok ["u"], Except.ok (some ["unit/a.png"]), true⟩ "o/r" 1 []).2.2 =
      [⟨api_url "o/r" 1, none, ReqKind.metadata⟩,
       ⟨"u", some "token None", ReqKind.download⟩] := by
  decide

/-- Every request trace the pipeline can produce. -/
theorem trace_characterization (env : Env) (repo : String) (run : Nat) (fs : List String) :
    (download_and_extract_artifact env repo run fs).2.2 = [] ∨
    (download_and_extract_artifact env repo run fs).2.2 =
      [⟨api_url repo run, none, ReqKind.metadata⟩] ∨
    ∃ u, (download_and_extract_artifact env repo run fs).2.2 =
      [⟨api_url repo run, none, ReqKind.metadata⟩,
       ⟨u, some ("token " ++ pyStrOpt env.token), ReqKind.download⟩] := by
  by_cases hhit : plots_path repo run ∈ fs
  · left
    rw [cache_hit_eq env repo run fs hhit]
  · obtain ⟨tok, arts, dl, mv⟩ := env
    cases arts with
    | error e =>
      right; left
      simp only [download_and_extract_artifact, get_artifact_url]
      rw [if_neg hhit]
    | ok l =>
      cases l with
      | nil =>
        right; left
        simp only [download_and_extract_artifact, get_artifact_url]
        rw [if_neg hhit]
      | cons u us =>
        right; right
        refine ⟨u, ?_⟩
        cases dl with
        | error e =>
          simp only [download_and_extract_artifact, get_artifact_url, List.singleton_append]
          rw [if_neg hhit]
        | ok odl =>
          cases odl with
          | none =>
            simp only [download_and_extract_artifact, get_artifact_url, List.singleton_append]
            rw [if_neg hhit]
          | some members =>
            cases mv with
            | true =>
              simp only [download_and_extract_artifact, get_artifact_url, List.singleton_append]
              rw [if_neg hhit]
              by_cases hcache : cache_path repo run ∈
                  extractall (addPath fs (zip_path repo run)) (cache_path repo run) members
              · rw [if_pos hcache]
                simp
              · rw [if_neg hcache]
            | false =>
              simp only [download_and_extract_artifact, get_artifact_url, List.singleton_append]
              rw [if_neg hhit]
              by_cases hcache : cache_path repo run ∈
                  extractall (addPath fs (zip_path repo run)) (cache_path repo run) members
              · rw [if_pos hcache]
                simp
              · rw [if_neg hcache]

/-- C10: every metadata request (the artifact listing) is issued without
any Authorization header, whatever the configured credential; and when
that listing fails, for instance because the repository is private and
the unauthenticated request is rejected, the call fails with the None
result for every credential value. -/
theorem C10_metadata_request_unauthenticated (env : Env) (repo : String) (run : Nat)
    (fs : List String) :
    (∀ r ∈ (download_and_extract_artifact env repo run fs).2.2,
        r.kind = ReqKind.metadata → r.authHeader = none) ∧
    (∀ (tok : Option String) (dlE : Except Unit (Option (List String))) (mv : Bool),
        plots_path repo run ∉ fs →
        download_and_extract_artifact ⟨tok, Except.error (), dlE, mv⟩ repo run fs =
          (Outcome.ret none, fs, [⟨api_url repo run, none, ReqKind.metadata⟩])) := by
  constructor
  · rcases trace_characterization env repo run fs with h | h | ⟨u, h⟩ <;> rw [h]
    · intro r hr
      simp at hr
    · intro r hr _
      simp only [List.mem_singleton] at hr
      subst hr
      rfl
    · intro r hr hk
      rcases List.mem_cons.1 hr with rfl | hr2
      · rfl
      · simp only [List.mem_singleton] at hr2
        subst hr2
        simp at hk
  · intro tok dlE mv hmiss
    simp only [download_and_extract_artifact, get_artifact_url]
    rw [if_neg hmiss]

/-- Witness for C10 on a failing listing with a configured credential. -/
theorem C10_witness :
    download_and_extract_artifact ⟨some "SECRET", Except.error (), Except.error (), true⟩
        "o/r" 1 [] =
      (Outcome.ret none, [], [⟨api_url "o/r" 1, none, ReqKind.metadata⟩]) :=
  (C10_metadata_request_unauthenticated
    ⟨some "SECRET", Except.error (), Except.error (), true⟩ "o/r" 1 []).2
    (some "SECRET") (Except.error ()) true (List.not_mem_nil _)

/-! ## Category indexer (src/app.py lines 91-105)

A published cache entry is a directory whose immediate children may be
files or directories; get_plot_categories inspects exactly two levels,
so the tree type needs no deep recursion in the proofs. -/

inductive FsNode
  | file
  | dir (children : List (String × FsNode))

/-- Names returned by os.listdir, in filesystem iteration order. -/
def listdir (children : List (String × FsNode)) : List String := children.map Prod.fst

/-- Resolving one name inside a directory, as os.path.join plus stat. -/
def childNode (children : List (String × FsNode)) (name : String) : Option FsNode :=
  (children.find? (fun e => e.1 == name)).map Prod.snd

/-- Lexicographic comparison of character lists by code points, the
ordering python sorted applies to strings. -/
def lexLe : List Char → List Char → Bool
  | [], _ => true
  | _ :: _, [] => false
  | a :: as, b :: bs => if a = b then lexLe as bs else decide (a < b)

def strLeP (a b : String) : Prop := lexLe a.data b.data = true

instance : DecidableRel strLeP := fun a b =>
  inferInstanceAs (Decidable (lexLe a.data b.data = true))

/-- Model of python sorted on strings: a comparison sort; on the total
antisymmetric code point order every comparison sort computes the same
list, so insertion sort is an exact model. -/
def pysorted (l : List String) : List String := List.insertionSort strLeP l

/-- Model of f.lower().endswith of the png suffix. Char.toLower lowers
the ascii range, which covers the png/PNG variants the source cares
about. -/
def isPngName (f : String) : Bool :=
  List.isSuffixOf ".png".data (f.data.map Char.toLower)

/-- Body of the loop in get_plot_categories for one listed name: a
directory child contributes its matching file names, sorted, unless the
match list is empty; files and missing names contribute nothing. -/
def categoryEntry (children : List (String × FsNode)) (item : String) :
    Option (String × List String) :=
  match childNode children item with
  | some (FsNode.dir sub) =>
    let png_files := (listdir sub).filter isPngName
    if png_files.isEmpty then none else some (item, pysorted png_files)
  | _ => none

/-- Model of get_plot_categories (src/app.py lines 91-105). The root is
none when the path does not exist (the empty mapping is returned), and
the association list keeps the dict insertion order, which follows the
sorted listing. -/
def get_plot_categories (root : Option (List (String × FsNode))) :
    List (String × List String) :=
  match root with
  | none => []
  | some children => (pysorted (listdir children)).filterMap (categoryEntry children)

/-- Modelled from the spec wording of C7: a directory qualifies when it
directly contains at least one file, not a subdirectory, whose name
matches the image extension case insensitively. -/
def specHasMatchingImageFile (sub : List (String × FsNode)) : Prop :=
  ∃ e ∈ sub, (match e.2 with | FsNode.file => true | FsNode.dir _ => false) = true ∧
    isPngName e.1 = true

instance (sub : List (String × FsNode)) : Decidable (specHasMatchingImageFile sub) := by
  unfold specHasMatchingImageFile
  exact inferInstance

/-! ### The code point order is total, transitive and antisymmetric -/

theorem lexLe_total : ∀ a b : List Char, lexLe a b = true ∨ lexLe b a = true := by
  intro a
  induction a with
  | nil => intro b; left; rfl
  | cons x xs ih =>
    intro b
    cases b with
    | nil => right; rfl
    | cons y ys =>
      by_cases hxy : x = y
      · subst hxy
        rcases ih ys with h | h
        · left
          simpa [lexLe] using h
        · right
          simpa [lexLe] using h
      · rcases lt_or_gt_of_ne hxy with h | h
        · left
          simp [lexLe, hxy, h]
        · right
          simp [lexLe, Ne.symm hxy, h]

theorem lexLe_antisymm : ∀ a b : List Char,
    lexLe a b = true → lexLe b a = true → a = b := by
  intro a
  induction a with
  | nil =>
    intro b h1 h2
    cases b with
    | nil => rfl
    | cons y ys => simp [lexLe] at h2
  | cons x xs ih =>
    intro b h1 h2
    cases b with
    | nil => simp [lexLe] at h1
    | cons y ys =>
      by_cases hxy : x = y
      · subst hxy
        simp only [lexLe, if_pos rfl] at h1 h2
        rw [ih ys h1 h2]
      · simp only [lexLe, if_neg hxy, decide_eq_true_eq] at h1
        simp only [lexLe, if_neg (Ne.symm hxy), decide_eq_true_eq] at h2
        exact absurd h2 (lt_asymm h1)

theorem lexLe_trans : ∀ a b c : List Char,
    lexLe a b = true → lexLe b c = true → lexLe a c = true := by
  intro a
  induction a with
  | nil => intro b c _ _; rfl
  | cons x xs ih =>
    intro b c h1 h2
    cases b with
    | nil => simp [lexLe] at h1
    | cons y ys =>
      cases c with
      | nil => simp [lexLe] at h2
      | cons z zs =>
        by_cases hxy : x = y <;> by_cases hyz : y = z
        · subst hxy
          subst hyz
          simp only [lexLe, if_pos rfl] at h1 h2 ⊢
          exact ih ys zs h1 h2
        · subst hxy
          simp only [lexLe, if_neg hyz, decide_eq_true_eq] at h2 ⊢
          exact h2
        · subst hyz
          simp only [lexLe, if_neg hxy, decide_eq_true_eq] at h1 ⊢
          exact h1
        · simp only [lexLe, if_neg hxy, decide_eq_true_eq] at h1
          simp only [lexLe, if_neg hyz, decide_eq_true_eq] at h2
          have hxz : x < z := lt_trans h1 h2
          simp only [lexLe, if_neg (ne_of_lt hxz), decide_eq_true_eq]
          exact hxz

instance : IsTotal String strLeP := ⟨fun a b => lexLe_total a.data b.data⟩

instance : IsTrans String strLeP := ⟨fun a b c => lexLe_trans a.data b.data c.data⟩

instance : IsAntisymm String strLeP :=
  ⟨fun a b h1 h2 => String.ext (lexLe_antisymm a.data b.data h1 h2)⟩

theorem pysorted_sorted (l : List String) : List.Sorted strLeP (pysorted l) :=
  List.sorted_insertionSort strLeP l

theorem pysorted_perm (l : List String) : (pysorted l).Perm l :=
  List.perm_insertionSort strLeP l

theorem pysorted_eq_of_perm {l1 l2 : List String} (h : l1.Perm l2) :
    pysorted l1 = pysorted l2 :=
  List.eq_of_perm_of_sorted
    ((pysorted_perm l1).trans (h.trans (pysorted_perm l2).symm))
    (pysorted_sorted l1) (pysorted_sorted l2)

theorem pysorted_ne_nil {l : List String} (h : l ≠ []) : pysorted l ≠ [] := by
  intro he
  exact h (List.Perm.eq_nil ((pysorted_perm l).symm.trans (he ▸ List.Perm.refl _)))

/-! ### Resolving names in a listing with distinct names -/

theorem childNode_cons (e : String × FsNode) (es : List (String × FsNode))
    (name : String) :
    childNode (e :: es) name =
      if e.1 == name then some e.2 else childNode es name := by
  by_cases h : (e.1 == name) = true
  · simp [childNode, List.find?, h]
  · simp [childNode, List.find?, h]

theorem childNode_eq_some {children : List (String × FsNode)} {name : String}
    {nd : FsNode} (hnd : (listdir children).Nodup) :
    childNode children name = some nd ↔ (name, nd) ∈ children := by
  induction children with
  | nil => simp [childNode]
  | cons e es ih =>
    obtain ⟨n0, t0⟩ := e
    simp only [listdir, List.map_cons, List.nodup_cons] at hnd
    rw [childNode_cons]
    by_cases he : (n0 == name) = true
    · have hn0 : n0 = name := beq_iff_eq.1 he
      subst hn0
      rw [if_pos he]
      constructor
      · intro h
        injection h with h
        rw [← h]
        exact List.mem_cons_self _ _
      · intro h
        rcases List.mem_cons.1 h with heq | hmem
        · injection heq with h1 h2
          rw [h2]
        · exact absurd (List.mem_map_of_mem Prod.fst hmem) hnd.1
    · rw [if_neg he]
      rw [ih hnd.2]
      constructor
      · exact fun h => List.mem_cons_of_mem _ h
      · intro h
        rcases List.mem_cons.1 h with heq | hmem
        · injection heq with h1 h2
          exact absurd (beq_iff_eq.2 h1.symm) he
        · exact hmem

theorem categoryEntry_none {children : List (String × FsNode)} {item : String}
    (hcn : childNode children item = none) : categoryEntry children item = none := by
  unfold categoryEntry
  rw [hcn]

theorem categoryEntry_file {children : List (String × FsNode)} {item : String}
    (hcn : childNode children item = some FsNode.file) :
    categoryEntry children item = none := by
  unfold categoryEntry
  rw [hcn]

theorem categoryEntry_dir {children : List (String × FsNode)} {item : String}
    {sub : List (String × FsNode)}
    (hcn : childNode children item = some (FsNode.dir sub)) :
    categoryEntry children item =
      if ((listdir sub).filter isPngName).isEmpty then none
      else some (item, pysorted ((listdir sub).filter isPngName)) := by
  unfold categoryEntry
  rw [hcn]

theorem categoryEntry_eq_some {children : List (String × FsNode)} {item : String}
    {p : String × List String} :
    categoryEntry children item = some p ↔
      ∃ sub, childNode children item = some (FsNode.dir sub) ∧
        (listdir sub).filter isPngName ≠ [] ∧
        p = (item, pysorted ((listdir sub).filter isPngName)) := by
  rcases hcn : childNode children item with - | nd
  · rw [categoryEntry_none hcn]
    simp
  · cases nd with
    | file =>
      rw [categoryEntry_file hcn]
      simp
    | dir sub =>
      rw [categoryEntry_dir hcn]
      by_cases hemp : ((listdir sub).filter isPngName).isEmpty
      · rw [if_pos hemp]
        have hfe : (listdir sub).filter isPngName = [] := List.isEmpty_iff.1 hemp
        constructor
        · intro h
          exact Option.noConfusion h
        · rintro ⟨sub2, hs, hne2, -⟩
          injection hs with hs
          injection hs with hs
          subst hs
          exact absurd hfe hne2
      · rw [if_neg hemp]
        have hne : (listdir sub).filter isPngName ≠ [] := by
          intro he
          exact hemp (List.isEmpty_iff.2 he)
        constructor
        · intro h
          injection h with h
          exact ⟨sub, rfl, hne, h.symm⟩
        · rintro ⟨sub2, hs, -, hp⟩
          injection hs with hs
          injection hs with hs
          subst hs
          rw [hp]

/-- Counterexample to C7: a category whose only matching entry is a
subdirectory named like an image. The code filters listdir names with no
file check, so the category is included although it contains no matching
file; the claim requires it omitted. -/
theorem C7_cex :
    get_plot_categories (some [("c", FsNode.dir [("x.png", FsNode.dir [])])]) =
      [("c", ["x.png"])] ∧
    ¬ specHasMatchingImageFile [("x.png", FsNode.dir [])] := by
  constructor
  · decide
  · decide

/-- C7 (amended): a subdirectory appears as a category exactly when its
listing contains at least one entry name, of a file or of a directory,
matching the image extension case insensitively; categories with an
empty match list are omitted and no category maps to an empty list. -/
theorem C7_amended_member_name_filter (children : List (String × FsNode))
    (hnd : (listdir children).Nodup) :
    (∀ name : String,
      name ∈ (get_plot_categories (some children)).map Prod.fst ↔
        ∃ sub, (name, FsNode.dir sub) ∈ children ∧
          (listdir sub).filter isPngName ≠ []) ∧
    (∀ p ∈ get_plot_categories (some children), p.2 ≠ []) := by
  constructor
  · intro name
    constructor
    · intro hmem
      obtain ⟨b, hb, hfst⟩ := List.mem_map.1 hmem
      obtain ⟨item, -, hf⟩ := List.mem_filterMap.1 hb
      obtain ⟨sub, hcn, hne, hp⟩ := categoryEntry_eq_some.1 hf
      have hitem : item = name := by
        rw [hp] at hfst
        exact hfst
      subst hitem
      exact ⟨sub, (childNode_eq_some hnd).1 hcn, hne⟩
    · rintro ⟨sub, hpair, hne⟩
      refine List.mem_map.2 ⟨(name, pysorted ((listdir sub).filter isPngName)), ?_, rfl⟩
      refine List.mem_filterMap.2 ⟨name, ?_, ?_⟩
      · exact ((pysorted_perm (listdir children)).mem_iff).2
          (List.mem_map_of_mem Prod.fst hpair)
      · exact categoryEntry_eq_some.2
          ⟨sub, (childNode_eq_some hnd).2 hpair, hne, rfl⟩
  · intro p hp
    obtain ⟨item, -, hf⟩ := List.mem_filterMap.1 hp
    obtain ⟨sub, -, hne, hpe⟩ := categoryEntry_eq_some.1 hf
    rw [hpe]
    exact pysorted_ne_nil hne

/-- Witness for the amended C7 theorem on the spec scenario listing. -/
theorem C7_witness :
    "unit" ∈ (get_plot_categories (some
      [("unit", FsNode.dir [("a.png", FsNode.file), ("b.PNG", FsNode.file)]),
       ("lint", FsNode.dir [("readme.txt", FsNode.file)])])).map Prod.fst :=
  ((C7_amended_member_name_filter
      [("unit", FsNode.dir [("a.png", FsNode.file), ("b.PNG", FsNode.file)]),
       ("lint", FsNode.dir [("readme.txt", FsNode.file)])] (by decide)).1 "unit").2
    ⟨[("a.png", FsNode.file), ("b.PNG", FsNode.file)], List.mem_cons_self _ _, by decide⟩

/-! ## Claim C8: sorted output, independent of iteration order -/

/-- Two resolved children are listing equivalent when they are both
absent, both files, or both directories whose listings are permutations
of one another. -/
def OptSubEquiv : Option FsNode → Option FsNode → Prop
  | none, none => True
  | some FsNode.file, some FsNode.file => True
  | some (FsNode.dir s1), some (FsNode.dir s2) => (listdir s1).Perm (listdir s2)
  | _, _ => False

instance (a b : Option FsNode) : Decidable (OptSubEquiv a b) := by
  cases a with
  | none =>
    cases b with
    | none => exact isTrue trivial
    | some y =>
      cases y with
      | file => exact isFalse id
      | dir s => exact isFalse id
  | some x =>
    cases x with
    | file =>
      cases b with
      | none => exact isFalse id
      | some y =>
        cases y with
        | file => exact isTrue trivial
        | dir s => exact isFalse id
    | dir s1 =>
      cases b with
      | none => exact isFalse id
      | some y =>
        cases y with
        | file => exact isFalse id
        | dir s2 => exact inferInstanceAs (Decidable ((listdir s1).Perm (listdir s2)))

theorem categoryEntry_fst {children : List (String × FsNode)} {item : String}
    {p : String × List String} (h : categoryEntry children item = some p) :
    p.1 = item := by
  obtain ⟨sub, -, -, hp⟩ := categoryEntry_eq_some.1 h
  rw [hp]

/-- C8: the category index lists category names in sorted order and each
file list sorted, and the whole result is unchanged when the directory
listings are permuted, that is, it does not depend on filesystem
iteration order. -/
theorem C8_sorted_and_order_independent (c1 c2 : List (String × FsNode))
    (hnd : (listdir c1).Nodup)
    (hperm : (listdir c1).Perm (listdir c2))
    (hsub : ∀ name ∈ listdir c1, OptSubEquiv (childNode c1 name) (childNode c2 name)) :
    get_plot_categories (some c1) = get_plot_categories (some c2) ∧
    List.Sorted strLeP ((get_plot_categories (some c1)).map Prod.fst) ∧
    (∀ p ∈ get_plot_categories (some c1), List.Sorted strLeP p.2) := by
  refine ⟨?_, ?_, ?_⟩
  · show (pysorted (listdir c1)).filterMap (categoryEntry c1) =
      (pysorted (listdir c2)).filterMap (categoryEntry c2)
    rw [← pysorted_eq_of_perm hperm]
    apply List.filterMap_congr
    intro item hitem
    have hmem : item ∈ listdir c1 := (pysorted_perm (listdir c1)).mem_iff.1 hitem
    have hequiv := hsub item hmem
    rcases h1 : childNode c1 item with - | nd1 <;> rcases h2 : childNode c2 item with - | nd2
    · rw [categoryEntry_none h1, categoryEntry_none h2]
    · rw [h1, h2] at hequiv
      cases nd2 with
      | file => exact absurd hequiv id
      | dir s => exact absurd hequiv id
    · rw [h1, h2] at hequiv
      cases nd1 with
      | file => exact absurd hequiv id
      | dir s => exact absurd hequiv id
    · rw [h1, h2] at hequiv
      cases nd1 with
      | file =>
        cases nd2 with
        | file => rw [categoryEntry_file h1, categoryEntry_file h2]
        | dir s2 => exact absurd hequiv id
      | dir s1 =>
        cases nd2 with
        | file => exact absurd hequiv id
        | dir s2 =>
          rw [categoryEntry_dir h1, categoryEntry_dir h2]
          have hfp : ((listdir s1).filter isPngName).Perm
              ((listdir s2).filter isPngName) := hequiv.filter isPngName
          by_cases hemp : ((listdir s1).filter isPngName).isEmpty
          · have hf1 : (listdir s1).filter isPngName = [] := List.isEmpty_iff.1 hemp
            have hf2 : (listdir s2).filter isPngName = [] := by
              rw [hf1] at hfp
              exact hfp.symm.eq_nil
            rw [if_pos hemp, if_pos (List.isEmpty_iff.2 hf2)]
          · have hne2 : ¬ ((listdir s2).filter isPngName).isEmpty = true := by
              intro h2
              apply hemp
              rw [List.isEmpty_iff.1 h2] at hfp
              exact List.isEmpty_iff.2 hfp.eq_nil
            rw [if_neg hemp, if_neg hne2]
            rw [pysorted_eq_of_perm hfp]
  · show List.Sorted strLeP
      (((pysorted (listdir c1)).filterMap (categoryEntry c1)).map Prod.fst)
    unfold List.Sorted
    rw [List.pairwise_map]
    apply List.Pairwise.filterMap (categoryEntry c1)
    · intro a a' hle b hb b' hb'
      have ha := categoryEntry_fst (Option.mem_def.1 hb)
      have ha' := categoryEntry_fst (Option.mem_def.1 hb')
      show strLeP b.1 b'.1
      rw [ha, ha']
      exact hle
    · exact pysorted_sorted (listdir c1)
  · intro p hp
    obtain ⟨item, -, hf⟩ := List.mem_filterMap.1 hp
    obtain ⟨sub, -, -, hpe⟩ := categoryEntry_eq_some.1 hf
    rw [hpe]
    exact pysorted_sorted _

/-- Witness for C8 on two listings of the same tree in different
iteration orders. -/
theorem C8_witness :
    get_plot_categories (some
      [("b", FsNode.dir [("y.png", FsNode.file), ("x.PNG", FsNode.file)]),
       ("a", FsNode.dir [("n.txt", FsNode.file)])]) =
    get_plot_categories (some
      [("a", FsNode.dir [("n.txt", FsNode.file)]),
       ("b", FsNode.dir [("x.PNG", FsNode.file), ("y.png", FsNode.file)])]) :=
  (C8_sorted_and_order_independent
    [("b", FsNode.dir [("y.png", FsNode.file), ("x.PNG", FsNode.file)]),
     ("a", FsNode.dir [("n.txt", FsNode.file)])]
    [("a", FsNode.dir [("n.txt", FsNode.file)]),
     ("b", FsNode.dir [("x.PNG", FsNode.file), ("y.png", FsNode.file)])]
    (by decide) (by decide) (by decide)).1

end K4Web
